import Mathlib

/-!
Shallow embedding of `src/index.ts` of benbalter/last-run-action.

The action persists a single ISO-8601 UTC timestamp as a GitHub artifact.
We embed the pure logic of the source file:

* `deriveOperations` — mode dispatch (get / set / get-and-set and aliases);
* `validateIsoTimestamp` — regex + `Date.parse` validation (the platform
  date parser is an explicit parameter, since its leniency is
  runtime-dependent);
* `fetchLatestRepoArtifact` — selection of the latest non-expired artifact
  by lexicographic `created_at` (JS string comparison embedded as
  code-unit lexicographic order `jsLt` / `jsLe`);
* `listRepoArtifactsByName` — the remote listing call, with the sequence of
  remote responses and the invocation count made explicit;
* `extractTimestampFromZip` — zip-entry extraction with soft failure;
* `setLastRunModel` — the monotonic-store regeneration loop (the wall
  clock is a parameter `clock : Nat → String` giving the result of the
  i-th `new Date().toISOString()` call);
* `runModel` — the orchestrator `run`, recording outputs, failure
  messages and the uploaded value.
-/

namespace LastRun

/-- Artifact name constant from the source (`ARTIFACT_NAME`). -/
def ARTIFACT_NAME : String := "last-run"

/-- Payload filename constant from the source (`FILENAME`). -/
def FILENAME : String := "last-run.txt"

/-- JS `<` on strings: code-unit lexicographic order on the character
lists. A strict prefix is smaller. -/
def listLtChars : List Char → List Char → Bool
  | _, [] => false
  | [], _ :: _ => true
  | a :: as, b :: bs =>
    if a.toNat < b.toNat then true
    else if b.toNat < a.toNat then false
    else listLtChars as bs

/-- Embedding of the JS string comparison `a < b`. -/
def jsLt (a b : String) : Bool := listLtChars a.data b.data

/-- Embedding of the JS string comparison `a <= b` (equivalent to
`!(b < a)` for strings). -/
def jsLe (a b : String) : Bool := !(jsLt b a)

theorem listLtChars_irrefl : ∀ l : List Char, listLtChars l l = false := by
  intro l
  induction l with
  | nil => rfl
  | cons c t ih => simp [listLtChars, ih]

theorem listLtChars_asymm :
    ∀ a b : List Char, listLtChars a b = true → listLtChars b a = false := by
  intro a
  induction a with
  | nil =>
    intro b h
    cases b with
    | nil => simp [listLtChars] at h
    | cons y bs => simp [listLtChars]
  | cons x as ih =>
    intro b h
    cases b with
    | nil => simp [listLtChars] at h
    | cons y bs =>
      simp only [listLtChars] at h ⊢
      by_cases h1 : x.toNat < y.toNat
      · have h2 : ¬ y.toNat < x.toNat := by omega
        simp [h1, h2]
      · by_cases h2 : y.toNat < x.toNat
        · simp [h1, h2] at h
        · simp only [if_neg h1, if_neg h2] at h ⊢
          exact ih bs h

theorem listLtChars_negtrans :
    ∀ as bs cs : List Char,
      listLtChars bs as = false → listLtChars cs bs = false →
      listLtChars cs as = false := by
  intro as
  induction as with
  | nil =>
    intro bs cs _ _
    cases cs <;> simp [listLtChars]
  | cons x as' ih =>
    intro bs cs h1 h2
    cases bs with
    | nil => simp [listLtChars] at h1
    | cons y bs' =>
      cases cs with
      | nil => simp [listLtChars] at h2
      | cons z cs' =>
        simp only [listLtChars] at h1 h2 ⊢
        by_cases hyx : y.toNat < x.toNat
        · simp [hyx] at h1
        · by_cases hzy : z.toNat < y.toNat
          · simp [hzy] at h2
          · have hzx : ¬ z.toNat < x.toNat := by omega
            by_cases hxz : x.toNat < z.toNat
            · simp [hzx, hxz]
            · have hxy : ¬ x.toNat < y.toNat := by omega
              have hyz : ¬ y.toNat < z.toNat := by omega
              simp only [if_neg hyx, if_neg hxy] at h1
              simp only [if_neg hzy, if_neg hyz] at h2
              simp only [if_neg hzx, if_neg hxz]
              exact ih bs' cs' h1 h2

theorem jsLe_refl (s : String) : jsLe s s = true := by
  simp [jsLe, jsLt, listLtChars_irrefl]

theorem jsLe_total (a b : String) : jsLe a b = true ∨ jsLe b a = true := by
  unfold jsLe jsLt
  cases h : listLtChars b.data a.data
  · left; simp
  · right; simp [listLtChars_asymm _ _ h]

theorem jsLe_trans (a b c : String)
    (h1 : jsLe a b = true) (h2 : jsLe b c = true) : jsLe a c = true := by
  unfold jsLe jsLt at h1 h2 ⊢
  simp only [Bool.not_eq_true'] at h1 h2 ⊢
  exact listLtChars_negtrans a.data b.data c.data h1 h2

/-- Which operations a run performs (`interface Operations`). -/
structure Operations where
  get : Bool
  set : Bool
deriving DecidableEq

/-- `deriveOperations` from the source: mode dispatch with the three
canonical modes, the two accepted aliases of `get-and-set`, and a
default-to-`get` fallback for every other string. -/
def deriveOperations (mode : String) : Operations :=
  if mode = "get" then ⟨true, false⟩
  else if mode = "set" then ⟨false, true⟩
  else if mode = "get-and-set" ∨ mode = "getset" ∨ mode = "get_and_set" then ⟨true, true⟩
  else ⟨true, false⟩

/-- Result shape of `validateIsoTimestamp` (`{ ok, reason? }`). -/
structure ValidationResult where
  ok : Bool
  reason : Option String
deriving DecidableEq

/-- Tail of the ISO pattern after the optional dot: zero or more digits
followed by the final literal `Z` (used for the digits after the first
fractional digit). -/
def fracTail : List Char → Bool
  | ['Z'] => true
  | c :: rest => c.isDigit && fracTail rest
  | [] => false

/-- End of the ISO pattern after the seconds field: either the literal
`Z`, or a dot followed by one or more digits and then `Z`. -/
def isoEnd : List Char → Bool
  | ['Z'] => true
  | '.' :: c :: rest => c.isDigit && fracTail rest
  | _ => false

/-- Character-list form of the source regex
`^\d{4}-\d{2}-\d{2}T\d{2}:\d{2}:\d{2}(?:\.\d+)?Z$` (`ISO_REGEX`). -/
def isoPatternChars : List Char → Bool
  | y1 :: y2 :: y3 :: y4 :: '-' :: m1 :: m2 :: '-' :: d1 :: d2 :: 'T' ::
      h1 :: h2 :: ':' :: n1 :: n2 :: ':' :: s1 :: s2 :: rest =>
    y1.isDigit && y2.isDigit && y3.isDigit && y4.isDigit &&
    m1.isDigit && m2.isDigit && d1.isDigit && d2.isDigit &&
    h1.isDigit && h2.isDigit && n1.isDigit && n2.isDigit &&
    s1.isDigit && s2.isDigit && isoEnd rest
  | _ => false

/-- `ISO_REGEX.test` on a string. -/
def isoPattern (s : String) : Bool := isoPatternChars s.data

/-- `validateIsoTimestamp` from the source. The input is
`string | null | undefined`, embedded as `Option String`; the JS
truthiness test `!value` holds exactly for `null`, `undefined` and the
empty string. `Date.parse` (platform date parser, runtime-dependent
leniency) is the explicit parameter `dateParseOk`, queried only when the
regex already matched. -/
def validateIsoTimestamp (dateParseOk : String → Bool) :
    Option String → ValidationResult
  | none => ⟨false, some "empty"⟩
  | some v =>
    if v = "" then ⟨false, some "empty"⟩
    else if !(isoPattern v) then ⟨false, some "pattern"⟩
    else if !(dateParseOk v) then ⟨false, some "parse"⟩
    else ⟨true, none⟩

/-- `RepoArtifactSummary` from the source: the fields of a listed
artifact the locator uses. -/
structure RepoArtifactSummary where
  id : Nat
  name : String
  created_at : String
  expired : Bool
deriving DecidableEq

/-- The ascending comparator `a.created_at.localeCompare(b.created_at)`
used by `viable.sort`, as a relation (for the ASCII timestamp strings
involved, locale comparison agrees with code-unit lexicographic
comparison). -/
def createdLe (a b : RepoArtifactSummary) : Prop :=
  jsLe a.created_at b.created_at = true

instance : DecidableRel createdLe := fun a b => by
  unfold createdLe; infer_instance

instance : IsTotal RepoArtifactSummary createdLe :=
  ⟨fun a b => jsLe_total a.created_at b.created_at⟩

instance : IsTrans RepoArtifactSummary createdLe :=
  ⟨fun _ _ _ h1 h2 => jsLe_trans _ _ _ h1 h2⟩

/-- `fetchLatestRepoArtifact` from the source, over the artifact list the
remote listing returned: filter out expired entries, sort ascending by
`created_at`, take the last element. (`viable.sort` is a stable sort;
`insertionSort` is a faithful model of it.) -/
def fetchLatestRepoArtifact (artifacts : List RepoArtifactSummary) :
    Option RepoArtifactSummary :=
  if artifacts.isEmpty then none
  else if (artifacts.filter fun a => !a.expired).isEmpty then none
  else (List.insertionSort createdLe (artifacts.filter fun a => !a.expired)).getLast?

/-- `listRepoArtifactsByName` from the source. `token` models the
environment token lookup; `api` gives the result of the i-th call to
`octokit.rest.actions.listArtifactsForRepo` (success or thrown error).
The pair's second component counts how many times the remote operation
was invoked. Without a token the function returns `[]` without calling;
with a token it performs exactly one call and any error propagates. -/
def listRepoArtifactsByName (token : Option String)
    (api : Nat → Except String (List RepoArtifactSummary)) :
    Except String (List RepoArtifactSummary) × Nat :=
  match token with
  | none => (Except.ok [], 0)
  | some _ => (api 0, 1)

/-- JS `String.prototype.trim`: drop leading and trailing whitespace. -/
def jsTrim (s : String) : String :=
  ⟨((s.data.dropWhile Char.isWhitespace).reverse.dropWhile
      Char.isWhitespace).reverse⟩

/-- `extractTimestampFromZip` from the source. The zip argument models
`new AdmZip(zipPath)`: `Except.error` is a thrown open/read failure
(corrupt archive), `Except.ok entries` the archive's entries as
name–content pairs. Returns the extracted value (trimmed content of the
`FILENAME` entry) and the list of warning messages emitted. -/
def extractTimestampFromZip
    (zip : Except String (List (String × String))) :
    Option String × List String :=
  match zip with
  | Except.error e => (none, ["Failed to extract zip: " ++ e])
  | Except.ok entries =>
    match entries.find? (fun en => en.1 == FILENAME) with
    | none => (none, [])
    | some en => (some (jsTrim en.2), [])

/-- Result of the store step: the uploaded value and the final value of
the `safeguard` counter (number of regenerations performed). -/
structure StoreResult where
  value : String
  iterations : Nat
deriving DecidableEq

/-- The regeneration loop of `setLastRun`:
`while (now <= previous && safeguard < 1000) { now = new Date().toISOString(); safeguard++ }`.
`fuel` is the remaining iteration budget (`1000 - safeguard`), `i` the
current `safeguard` value, `now` the current candidate (equal to
`clock i`). -/
def regen (clock : Nat → String) (previous : String) :
    Nat → Nat → String → StoreResult
  | 0, i, now => ⟨now, i⟩
  | fuel + 1, i, now =>
    if jsLe now previous then regen clock previous fuel (i + 1) (clock (i + 1))
    else ⟨now, i⟩

/-- `setLastRun` from the source: capture the current instant; when a
previous value exists, regenerate (cap 1000) until strictly greater; the
resulting value is what `uploadTimestamp` uploads. -/
def setLastRunModel (clock : Nat → String) (previous : Option String) :
    StoreResult :=
  match previous with
  | none => ⟨clock 0, 0⟩
  | some p => regen clock p 1000 0 (clock 0)

/-- The fixed message of `getLastRun` for a missing or invalid previous
timestamp. -/
def NO_TIMESTAMP_MSG : String := "No valid previous run timestamp found."

/-- Effects of `getLastRun`: the value returned to `run`, the `last-run`
output (set only on success) and the `setFailed` messages recorded. -/
structure GetOutcome where
  retrieved : Option String
  output : Option String
  failed : List String
deriving DecidableEq

/-- `getLastRun` from the source. `downloaded` is the result of
`downloadTimestampWithValidation` (a validated timestamp or `null`). On
success the output is set; on a miss, `failIfMissing` decides between
`setFailed` (which marks the run failed but does not throw) and a
warning. In both miss cases `null` is returned and execution continues. -/
def getLastRunModel (failIfMissing : Bool) (downloaded : Option String) :
    GetOutcome :=
  match downloaded with
  | some v => ⟨some v, some v, []⟩
  | none => ⟨none, none, if failIfMissing then [NO_TIMESTAMP_MSG] else []⟩

/-- Observable effects of one `run` invocation. -/
structure RunEffects where
  output : Option String
  failed : List String
  uploaded : Option String
deriving DecidableEq

/-- `run` from the source: derive the operations from the mode, retrieve
when `operations.get`, then store when `operations.set`, passing the
retrieved value (possibly `null`) as `previous` to `setLastRun`. A
`setFailed` during retrieval does not stop the store step. -/
def runModel (mode : String) (failIfMissing : Bool)
    (downloaded : Option String) (clock : Nat → String) : RunEffects :=
  let ops := deriveOperations mode
  let g := if ops.get then getLastRunModel failIfMissing downloaded
           else ⟨none, none, []⟩
  let uploaded :=
    if ops.set then some (setLastRunModel clock g.retrieved).value else none
  ⟨g.output, g.failed, uploaded⟩

/-- Concrete non-expired artifact used as a witness input (the spec's
handle 1). -/
def exampleArtifactA : RepoArtifactSummary :=
  ⟨1, "last-run", "2025-01-01T00:00:00Z", false⟩

/-- Concrete expired artifact with a later `created_at` used as a witness
input (the spec's handle 2). -/
def exampleArtifactB : RepoArtifactSummary :=
  ⟨2, "last-run", "2025-06-01T00:00:00Z", true⟩

/-- Concrete clock used as a witness input: the first reading repeats the
previous instant, every later reading is one millisecond later. -/
def exampleClock : Nat → String := fun i =>
  if i = 0 then "2025-01-01T00:00:00.000Z" else "2025-01-01T00:00:00.001Z"

theorem getLast_mem_of_some {α : Type} :
    ∀ (l : List α) (y : α), l.getLast? = some y → y ∈ l := by
  intro l
  induction l with
  | nil => intro y h; simp at h
  | cons a t ih =>
    intro y h
    cases t with
    | nil =>
      simp at h
      simp [h]
    | cons b t' =>
      rw [List.getLast?_cons_cons] at h
      exact List.mem_cons_of_mem a (ih y h)

theorem pairwise_rel_getLast {α : Type} {R : α → α → Prop}
    (hrefl : ∀ x, R x x) :
    ∀ l : List α, List.Pairwise R l →
      ∀ x, x ∈ l → ∀ y, l.getLast? = some y → R x y := by
  intro l
  induction l with
  | nil => intro _ x hx; cases hx
  | cons a t ih =>
    intro hp x hx y hy
    cases t with
    | nil =>
      simp at hy hx
      subst_vars
      exact hrefl _
    | cons b t' =>
      rw [List.getLast?_cons_cons] at hy
      rcases List.mem_cons.mp hx with rfl | hx'
      · exact (List.pairwise_cons.mp hp).1 y (getLast_mem_of_some _ _ hy)
      · exact ih (List.pairwise_cons.mp hp).2 x hx' y hy

theorem regen_iterations_le (clock : Nat → String) (p : String) :
    ∀ fuel i now, (regen clock p fuel i now).iterations ≤ i + fuel := by
  intro fuel
  induction fuel with
  | zero => intro i now; simp [regen]
  | succ f ih =>
    intro i now
    simp only [regen]
    by_cases h : jsLe now p = true
    · rw [if_pos h]
      have := ih (i + 1) (clock (i + 1))
      omega
    · rw [if_neg h]
      simp only []
      omega

theorem regen_gt (clock : Nat → String) (p : String) :
    ∀ fuel i, (∃ j, i ≤ j ∧ j ≤ i + fuel ∧ jsLt p (clock j) = true) →
      jsLt p (regen clock p fuel i (clock i)).value = true := by
  intro fuel
  induction fuel with
  | zero =>
    rintro i ⟨j, hij, hji, hj⟩
    have hji' : j = i := by omega
    subst hji'
    simpa [regen] using hj
  | succ f ih =>
    rintro i ⟨j, hij, hji, hj⟩
    simp only [regen]
    by_cases h : jsLe (clock i) p = true
    · rw [if_pos h]
      apply ih (i + 1)
      refine ⟨j, ?_, by omega, hj⟩
      rcases Nat.eq_or_lt_of_le hij with rfl | hlt
      · exfalso
        unfold jsLe at h
        rw [hj] at h
        simp at h
      · omega
    · rw [if_neg h]
      unfold jsLe at h
      simp only [Bool.not_eq_true, Bool.not_eq_false] at h
      simpa using h

theorem regen_const_value (c p : String) (hc : jsLe c p = true) :
    ∀ fuel i, (regen (fun _ => c) p fuel i c).value = c := by
  intro fuel
  induction fuel with
  | zero => intro i; rfl
  | succ f ih =>
    intro i
    simp only [regen, if_pos hc]
    exact ih (i + 1)

/-- C1 counterexample: with a clock stuck at an instant not greater than
`previous` (here `previous` lies one second ahead of the clock), the
regeneration loop exits through the 1000-iteration safeguard and the
uploaded value is NOT strictly lexicographically greater than
`previous`. -/
theorem setLastRun_cap_counterexample :
    (setLastRunModel (fun _ => "2025-01-01T00:00:00.000Z")
        (some "2025-01-01T00:00:01.000Z")).value = "2025-01-01T00:00:00.000Z" ∧
    jsLt "2025-01-01T00:00:01.000Z" "2025-01-01T00:00:00.000Z" = false := by
  constructor
  · show (regen (fun _ => "2025-01-01T00:00:00.000Z") "2025-01-01T00:00:01.000Z"
        1000 0 "2025-01-01T00:00:00.000Z").value = "2025-01-01T00:00:00.000Z"
    exact regen_const_value _ _ (by decide) 1000 0
  · decide

/-- C1 (amended): when the stored previous timestamp is present and some
clock reading within the 1000-iteration safeguard is strictly
lexicographically greater than it (as happens whenever the clock advances
past `previous`, in particular across a millisecond boundary), `setLastRun`
uploads a strictly greater value; the regeneration loop never performs
more than 1000 iterations. -/
theorem setLastRun_monotonic_of_clock_advances (clock : Nat → String)
    (p : String) (h : ∃ j, j ≤ 1000 ∧ jsLt p (clock j) = true) :
    jsLt p (setLastRunModel clock (some p)).value = true ∧
    (setLastRunModel clock (some p)).iterations ≤ 1000 := by
  constructor
  · show jsLt p (regen clock p 1000 0 (clock 0)).value = true
    apply regen_gt clock p 1000 0
    obtain ⟨j, hj1, hj2⟩ := h
    exact ⟨j, Nat.zero_le j, by omega, hj2⟩
  · show (regen clock p 1000 0 (clock 0)).iterations ≤ 1000
    have := regen_iterations_le clock p 1000 0 (clock 0)
    omega

/-- C1 witness: a clock that repeats the previous instant once and then
advances by one millisecond satisfies the hypothesis, and the uploaded
value is strictly greater. -/
theorem setLastRun_monotonic_witness :
    (∃ j, j ≤ 1000 ∧
        jsLt "2025-01-01T00:00:00.000Z" (exampleClock j) = true) ∧
    (jsLt "2025-01-01T00:00:00.000Z"
        (setLastRunModel exampleClock (some "2025-01-01T00:00:00.000Z")).value
          = true ∧
      (setLastRunModel exampleClock
          (some "2025-01-01T00:00:00.000Z")).iterations ≤ 1000) :=
  ⟨⟨1, by decide, by decide⟩,
    setLastRun_monotonic_of_clock_advances exampleClock
      "2025-01-01T00:00:00.000Z" ⟨1, by decide, by decide⟩⟩

/-- C2: with `failIfMissing = true`, a retrieval that yields no valid
timestamp and a mode whose operations are get-and-set, the run records
the fixed failure message AND the store step still executes, uploading
the freshly generated timestamp. -/
theorem run_failIfMissing_still_stores (mode : String) (clock : Nat → String)
    (hmode : deriveOperations mode = ⟨true, true⟩) :
    (runModel mode true none clock).failed = [NO_TIMESTAMP_MSG] ∧
    (runModel mode true none clock).uploaded =
      some (setLastRunModel clock none).value := by
  unfold runModel
  rw [hmode]
  simp [getLastRunModel]

/-- C2 witness: the combined mode string itself. -/
theorem run_failIfMissing_still_stores_witness :
    deriveOperations "get-and-set" = ⟨true, true⟩ ∧
    ((runModel "get-and-set" true none exampleClock).failed =
        [NO_TIMESTAMP_MSG] ∧
      (runModel "get-and-set" true none exampleClock).uploaded =
        some (setLastRunModel exampleClock none).value) :=
  ⟨by decide,
    run_failIfMissing_still_stores "get-and-set" exampleClock (by decide)⟩

/-- C3: `fetchLatestRepoArtifact` never returns an expired handle; when a
non-expired handle exists it returns one whose `created_at` is
lexicographically greatest among the non-expired handles, and when every
handle is expired it returns none. -/
theorem fetchLatestRepoArtifact_spec (artifacts : List RepoArtifactSummary) :
    (∀ res, fetchLatestRepoArtifact artifacts = some res →
        res.expired = false ∧
        ∀ a, a ∈ artifacts → a.expired = false →
          jsLe a.created_at res.created_at = true) ∧
    ((∀ a, a ∈ artifacts → a.expired = true) →
        fetchLatestRepoArtifact artifacts = none) ∧
    ((∃ a, a ∈ artifacts ∧ a.expired = false) →
        (fetchLatestRepoArtifact artifacts).isSome = true) := by
  by_cases hemp : artifacts.isEmpty
  · have hnil : artifacts = [] := List.isEmpty_iff.mp hemp
    subst hnil
    refine ⟨?_, ?_, ?_⟩
    · intro res hres; simp [fetchLatestRepoArtifact] at hres
    · intro _; simp [fetchLatestRepoArtifact]
    · rintro ⟨a, ha, _⟩; cases ha
  · by_cases hvemp : (artifacts.filter fun a => !a.expired).isEmpty
    · have hv : artifacts.filter (fun a => !a.expired) = [] :=
        List.isEmpty_iff.mp hvemp
      refine ⟨?_, ?_, ?_⟩
      · intro res hres
        simp [fetchLatestRepoArtifact, hemp, hvemp] at hres
      · intro _
        simp [fetchLatestRepoArtifact, hemp, hvemp]
      · rintro ⟨a, ha, hae⟩
        exfalso
        have : a ∈ artifacts.filter fun x => !x.expired :=
          List.mem_filter.mpr ⟨ha, by simp [hae]⟩
        rw [hv] at this
        cases this
    · have hfetch : fetchLatestRepoArtifact artifacts =
          (List.insertionSort createdLe
            (artifacts.filter fun a => !a.expired)).getLast? := by
        unfold fetchLatestRepoArtifact
        rw [if_neg hemp, if_neg hvemp]
      have hsorted :=
        List.sorted_insertionSort createdLe (artifacts.filter fun a => !a.expired)
      have hperm :=
        List.perm_insertionSort createdLe (artifacts.filter fun a => !a.expired)
      refine ⟨?_, ?_, ?_⟩
      · intro res hres
        rw [hfetch] at hres
        have hmem := getLast_mem_of_some _ _ hres
        have hmemv : res ∈ artifacts.filter (fun a => !a.expired) :=
          hperm.mem_iff.mp hmem
        have hmf := List.mem_filter.mp hmemv
        refine ⟨by simpa using hmf.2, ?_⟩
        intro a ha hae
        have hav : a ∈ artifacts.filter fun x => !x.expired :=
          List.mem_filter.mpr ⟨ha, by simp [hae]⟩
        have has : a ∈ List.insertionSort createdLe
            (artifacts.filter fun x => !x.expired) := hperm.mem_iff.mpr hav
        exact @pairwise_rel_getLast RepoArtifactSummary createdLe
          (fun x => jsLe_refl x.created_at) _ hsorted a has res hres
      · intro hall
        exfalso
        apply hvemp
        rw [List.isEmpty_iff, List.filter_eq_nil_iff]
        intro a ha
        simp [hall a ha]
      · intro _
        rw [hfetch, List.getLast?_isSome]
        intro hnil
        rw [hnil] at hperm
        apply hvemp
        rw [List.isEmpty_iff]
        exact hperm.symm.eq_nil

/-- C3 witness: the spec's two-handle example (handle 2 is newer but
expired) selects handle 1. -/
theorem fetchLatestRepoArtifact_spec_witness :
    fetchLatestRepoArtifact [exampleArtifactA, exampleArtifactB] =
        some exampleArtifactA ∧
    (exampleArtifactA.expired = false ∧
      ∀ a, a ∈ [exampleArtifactA, exampleArtifactB] → a.expired = false →
        jsLe a.created_at exampleArtifactA.created_at = true) :=
  ⟨by decide,
    (fetchLatestRepoArtifact_spec [exampleArtifactA, exampleArtifactB]).1
      exampleArtifactA (by decide)⟩

/-- C4 (code evaluated at the failing input): `listRepoArtifactsByName`
invokes the remote listing exactly once and propagates the first failure,
even though the very next attempt would succeed — no retry wrapper is
applied, contradicting the claimed k+1-invocation retry semantics and its
uniform application. -/
theorem listRepoArtifactsByName_no_retry :
    listRepoArtifactsByName (some "token")
        (fun i => if i = 0 then Except.error "transient network error"
                  else Except.ok [exampleArtifactA]) =
      (Except.error "transient network error", 1) := rfl

/-- C5 counterexample: a whitespace-only (blank but non-empty) candidate
is truthy in JS, so it reaches the regex test and is rejected with reason
pattern, not empty. -/
theorem validate_blank_counterexample :
    validateIsoTimestamp (fun _ => true) (some " ") =
        ⟨false, some "pattern"⟩ ∧
    validateIsoTimestamp (fun _ => true) (some " ") ≠
        ⟨false, some "empty"⟩ := by
  exact ⟨by decide, by decide⟩

/-- C5 (amended): for every absent candidate and for the empty string the
validator returns reason empty; a whitespace-only non-empty candidate
instead yields reason pattern. -/
theorem validate_empty_amended (dateParseOk : String → Bool)
    (v : Option String) (h : v = none ∨ v = some "") :
    validateIsoTimestamp dateParseOk v = ⟨false, some "empty"⟩ := by
  rcases h with rfl | rfl
  · rfl
  · simp [validateIsoTimestamp]

/-- C5 witness: the absent candidate. -/
theorem validate_empty_amended_witness :
    validateIsoTimestamp (fun _ => true) none = ⟨false, some "empty"⟩ :=
  validate_empty_amended (fun _ => true) none (Or.inl rfl)

/-- C6 counterexample: the empty string does not match the grammar, yet
the validator reports reason empty (the truthiness check fires first),
not reason pattern. -/
theorem validate_empty_string_pattern_counterexample :
    isoPattern "" = false ∧
    validateIsoTimestamp (fun _ => true) (some "") =
        ⟨false, some "empty"⟩ ∧
    validateIsoTimestamp (fun _ => true) (some "") ≠
        ⟨false, some "pattern"⟩ := by
  exact ⟨by decide, by decide, by decide⟩

/-- C6 (amended): every NON-EMPTY string that does not match the fixed
ISO-8601 Z-suffixed grammar is rejected with reason pattern (the empty
string is instead rejected with reason empty). -/
theorem validate_pattern_amended (dateParseOk : String → Bool) (s : String)
    (hne : s ≠ "") (hp : isoPattern s = false) :
    validateIsoTimestamp dateParseOk (some s) = ⟨false, some "pattern"⟩ := by
  simp [validateIsoTimestamp, hne, hp]

/-- C6 witness: a concrete non-matching string. -/
theorem validate_pattern_amended_witness :
    ("not-a-timestamp" : String) ≠ "" ∧
    isoPattern "not-a-timestamp" = false ∧
    validateIsoTimestamp (fun _ => true) (some "not-a-timestamp") =
      ⟨false, some "pattern"⟩ :=
  ⟨by decide, by decide,
    validate_pattern_amended (fun _ => true) "not-a-timestamp"
      (by decide) (by decide)⟩

/-- C7: the mode dispatch maps get to retrieve-only, set to store-only,
get-and-set and both accepted spelling variants to retrieve-then-store,
and every other mode string to exactly the operations of get. -/
theorem deriveOperations_dispatch :
    deriveOperations "get" = ⟨true, false⟩ ∧
    deriveOperations "set" = ⟨false, true⟩ ∧
    deriveOperations "get-and-set" = ⟨true, true⟩ ∧
    deriveOperations "getset" = ⟨true, true⟩ ∧
    deriveOperations "get_and_set" = ⟨true, true⟩ ∧
    ∀ mode, mode ≠ "get" → mode ≠ "set" → mode ≠ "get-and-set" →
      mode ≠ "getset" → mode ≠ "get_and_set" →
      deriveOperations mode = deriveOperations "get" := by
  refine ⟨by decide, by decide, by decide, by decide, by decide, ?_⟩
  intro mode h1 h2 h3 h4 h5
  have hg : deriveOperations "get" = ⟨true, false⟩ := by decide
  rw [hg]
  unfold deriveOperations
  rw [if_neg h1, if_neg h2, if_neg (by simp [h3, h4, h5])]

/-- C7 witness: an unknown mode string behaves like get. -/
theorem deriveOperations_dispatch_witness :
    ("bogus" : String) ≠ "get" ∧
    deriveOperations "bogus" = deriveOperations "get" :=
  ⟨by decide,
    deriveOperations_dispatch.2.2.2.2.2 "bogus" (by decide) (by decide)
      (by decide) (by decide) (by decide)⟩

/-- C8: when the archive is corrupt (open/read throws) or lacks the
expected `last-run.txt` entry, the extractor returns none rather than
raising, and the corrupt case emits a warning. -/
theorem extractTimestampFromZip_soft_failure
    (zip : Except String (List (String × String)))
    (h : (∃ e, zip = Except.error e) ∨
         (∃ entries, zip = Except.ok entries ∧
            ∀ en ∈ entries, ¬(en.1 = FILENAME))) :
    (extractTimestampFromZip zip).1 = none ∧
    (∀ e, zip = Except.error e → (extractTimestampFromZip zip).2 ≠ []) := by
  rcases h with ⟨e, rfl⟩ | ⟨entries, rfl, hnone⟩
  · exact ⟨rfl, fun _ _ => by simp [extractTimestampFromZip]⟩
  · have hfind : entries.find? (fun en => en.1 == FILENAME) = none := by
      rw [List.find?_eq_none]
      intro x hx
      simpa using hnone x hx
    constructor
    · simp [extractTimestampFromZip, hfind]
    · intro e he
      exact Except.noConfusion he

/-- C8 witness: a corrupt archive yields none plus a warning. -/
theorem extractTimestampFromZip_soft_failure_witness :
    (extractTimestampFromZip (Except.error "corrupt archive")).1 = none ∧
    (extractTimestampFromZip (Except.error "corrupt archive")).2 ≠ [] :=
  ⟨(extractTimestampFromZip_soft_failure (Except.error "corrupt archive")
      (Or.inl ⟨"corrupt archive", rfl⟩)).1,
    (extractTimestampFromZip_soft_failure (Except.error "corrupt archive")
      (Or.inl ⟨"corrupt archive", rfl⟩)).2 "corrupt archive" rfl⟩

/-- C9: the validator's result is well-formed — on success no reason is
present, on failure the reason is present and is one of empty, pattern,
parse. -/
theorem validateIsoTimestamp_wellformed (dateParseOk : String → Bool)
    (v : Option String) :
    ((validateIsoTimestamp dateParseOk v).ok = true →
      (validateIsoTimestamp dateParseOk v).reason = none) ∧
    ((validateIsoTimestamp dateParseOk v).ok = false →
      (validateIsoTimestamp dateParseOk v).reason = some "empty" ∨
      (validateIsoTimestamp dateParseOk v).reason = some "pattern" ∨
      (validateIsoTimestamp dateParseOk v).reason = some "parse") := by
  cases v with
  | none => simp [validateIsoTimestamp]
  | some s =>
    simp only [validateIsoTimestamp]
    split_ifs <;> simp

/-- C9 witness: the absent candidate fails with one of the three
reasons. -/
theorem validateIsoTimestamp_wellformed_witness :
    (validateIsoTimestamp (fun _ => true) none).reason = some "empty" ∨
    (validateIsoTimestamp (fun _ => true) none).reason = some "pattern" ∨
    (validateIsoTimestamp (fun _ => true) none).reason = some "parse" :=
  (validateIsoTimestamp_wellformed (fun _ => true) none).2 (by decide)

/-- C10: for every mode string the derived operations enable at least one
of get and set — an invocation is never a complete no-op. -/
theorem deriveOperations_never_noop (mode : String) :
    (deriveOperations mode).get = true ∨
    (deriveOperations mode).set = true := by
  unfold deriveOperations
  split_ifs <;> simp

end LastRun
